/-
  Verification of the ai-insight-tracker daily pipeline against its
  natural-language specification.

  Shallow embedding of the relevant program parts:
  * scripts/daily_crawl.py      (task_analyze, task_update_file_list)
  * src/agents/base_analyzer.py (BaseLightAnalyzer.analyze_one / analyze_batch)
  * src/data_fetchers/ids_tracker.py (IdsTracker)
  * src/data_fetchers/arxiv/client.py (AsyncArxivClient)
  * src/data_fetchers/news/fetcher.py (NewsFetcher.fetch_all)
  * src/data_fetchers/arxiv/html_fulltext.py (fetch_arxiv_html_fulltext)
  * src/agents/paper/deep_analyzer/ (writer / reviewer loop)
  * src/file_index.py (build_file_list / write_file_list)

  Machine integers do not overflow in any of the modelled code paths, so
  timestamps are modelled as `Int`, counters as `Nat`, and identifiers as
  `String`.
-/
import Mathlib

set_option linter.unusedVariables false

/-! ## Part 1: the light-analysis task (`task_analyze` in scripts/daily_crawl.py
    together with `BaseLightAnalyzer.analyze_one` / `analyze_batch`).

    An `ARecord` is the shallow embedding of an `AnalyzedPaper` / `AnalyzedNews`
    record as it sits in `papers/{date}.json` or `news/{date}.json`:
    base fields are collapsed into `id`, the analysis payload into
    `analysis : Option String`.  The LLM is an oracle
    `LLMOracle := String → LLMResult` keyed by item id; `analyze_one` is
    deterministic given the oracle. -/

/-- Outcome of one `chat_structured` call, mirroring the exception taxonomy
    handled in `BaseLightAnalyzer.analyze_one`:
    success, `LLMParseError`, `LLMRateLimitError`, or any other exception. -/
inductive LLMResult where
  | ok (analysis : String)
  | parseErr (msg : String)
  | rateLimitErr (msg : String)
  | otherErr (msg : String)
deriving DecidableEq, Repr

/-- The LLM client, modelled as a deterministic oracle keyed by item id. -/
def LLMOracle := String → LLMResult

/-- One on-disk analyzed record (`AnalyzedPaper` / `AnalyzedNews`):
    `id` stands for all base fields, `status` is `analysis_status`
    (`"pending" | "success" | "failed"`), `analysis` is `light_analysis`,
    `error` is `analysis_error` and `analyzedAt` is `analyzed_at`. -/
structure ARecord where
  id : String
  status : String
  analysis : Option String := none
  error : Option String := none
  analyzedAt : Option Int := none
deriving DecidableEq, Repr

/-- `BaseLightAnalyzer.analyze_one`: a fresh output is created from the base
    item (`_create_output`, status `pending`, no analysis fields), then the
    LLM call either attaches the analysis (status `success`,
    `analyzed_at = now`) or marks the record failed with a classified
    error message.  Exceptions never escape the function. -/
def analyzeOne (llm : LLMOracle) (now : Int) (base : ARecord) : ARecord :=
  let fresh : ARecord := { id := base.id, status := "pending" }
  match llm base.id with
  | .ok a => { fresh with status := "success", analysis := some a, analyzedAt := some now }
  | .parseErr m => { fresh with status := "failed", error := some ("JSON 解析失败: " ++ m) }
  | .rateLimitErr m => { fresh with status := "failed", error := some ("API 限流: " ++ m) }
  | .otherErr m => { fresh with status := "failed", error := some m }

/-- `BaseLightAnalyzer.analyze_batch`: concurrent fan-out that preserves the
    input order of the returned list, i.e. a `map` of `analyze_one`. -/
def analyzeBatch (llm : LLMOracle) (now : Int) (items : List ARecord) : List ARecord :=
  items.map (analyzeOne llm now)

/-- On-disk state consumed and produced by the analyze task: the contents of
    `papers/{date}.json` and `news/{date}.json`. -/
structure AnalyzeFiles where
  papers : List ARecord
  news : List ARecord
deriving DecidableEq, Repr

/-- The records of a day file that are already done:
    `[p for p in existing if p.analysis_status == "success"]`. -/
def doneOf (l : List ARecord) : List ARecord :=
  l.filter (fun r => r.status = "success")

/-- The records of a day file still to analyze:
    `[p for p in existing if p.analysis_status != "success"]`. -/
def todoOf (l : List ARecord) : List ARecord :=
  l.filter (fun r => ¬ r.status = "success")

/-- `task_analyze` (scripts/daily_crawl.py).  Returns the resulting on-disk
    state together with the number of LLM calls issued:
    * records are split into done (`analysis_status == "success"`) and
      to-analyze (everything else);
    * if nothing is loaded, or everything is already done, the task returns
      early without rewriting the files and without any LLM call;
    * otherwise only the to-analyze records go through `analyze_batch`
      (one LLM call each), and each file is rewritten as
      `done ++ newly_analyzed` when that list is non-empty. -/
def taskAnalyze (llmP llmN : LLMOracle) (now : Int) (s : AnalyzeFiles) :
    AnalyzeFiles × Nat :=
  if s.papers = [] ∧ s.news = [] then (s, 0)
  else if todoOf s.papers = [] ∧ todoOf s.news = [] then (s, 0)
  else
    let finalPapers := doneOf s.papers ++ analyzeBatch llmP now (todoOf s.papers)
    let finalNews := doneOf s.news ++ analyzeBatch llmN now (todoOf s.news)
    ({ papers := if finalPapers = [] then s.papers else finalPapers,
       news := if finalNews = [] then s.news else finalNews },
     (todoOf s.papers).length + (todoOf s.news).length)

/-- The ids submitted to the LLM by one run of `task_analyze`: exactly the
    records whose on-disk `analysis_status` is not `"success"`. -/
def submittedIds (s : AnalyzeFiles) : List String :=
  (todoOf s.papers).map ARecord.id ++ (todoOf s.news).map ARecord.id

/-- Number of records of the on-disk state whose status is not `"success"`. -/
def countNonSuccess (s : AnalyzeFiles) : Nat :=
  (todoOf s.papers).length + (todoOf s.news).length

/-- `task_analyze` performs no operation on the `analyzed` IdsTracker:
    scripts/daily_crawl.py never imports `get_analyzed_tracker`, so the
    tracker state threaded through the pipeline is returned unchanged. -/
def analyzedTrackerAfterAnalyze (tracker : List String) : List String :=
  tracker

/-- The on-disk papers file shows id `x` with `analysis_status = "success"`. -/
def diskShowsSuccess (file : List ARecord) (x : String) : Prop :=
  ∃ r ∈ file, r.id = x ∧ r.status = "success"

instance (file : List ARecord) (x : String) : Decidable (diskShowsSuccess file x) := by
  unfold diskShowsSuccess
  exact List.decidableBEx _ file

/-- The LLM oracle answers successfully for id `x`. -/
def llmSucceeds (llm : LLMOracle) (x : String) : Prop :=
  ∃ a, llm x = LLMResult.ok a

theorem analyzeOne_id (llm : LLMOracle) (now : Int) (b : ARecord) :
    (analyzeOne llm now b).id = b.id := by
  unfold analyzeOne
  cases llm b.id <;> rfl

theorem analyzeOne_success_iff (llm : LLMOracle) (now : Int) (b : ARecord) :
    (analyzeOne llm now b).status = "success" ↔ llmSucceeds llm b.id := by
  unfold analyzeOne llmSucceeds
  cases h : llm b.id <;> simp_all

/-- One run of `task_analyze` issues exactly one LLM call per record whose
    on-disk status is not `"success"`. -/
theorem taskAnalyze_calls (llmP llmN : LLMOracle) (now : Int) (s : AnalyzeFiles) :
    (taskAnalyze llmP llmN now s).2 = countNonSuccess s := by
  unfold taskAnalyze countNonSuccess
  split
  · rename_i h
    simp [todoOf, h.1, h.2]
  · split
    · rename_i h
      simp [h.1, h.2]
    · rfl

/-- When every loaded record already has status `"success"` (or nothing is
    loaded), `task_analyze` returns early and leaves the files untouched. -/
theorem taskAnalyze_noop (llmP llmN : LLMOracle) (now : Int) (s : AnalyzeFiles)
    (h : countNonSuccess s = 0) : (taskAnalyze llmP llmN now s).1 = s := by
  unfold taskAnalyze
  unfold countNonSuccess at h
  split
  · rfl
  · split
    · rfl
    · rename_i h2
      rw [Nat.add_eq_zero] at h
      rw [List.length_eq_zero, List.length_eq_zero] at h
      exact absurd h h2

theorem doneOf_todoOf_nil {l : List ARecord} (hd : doneOf l = []) (ht : todoOf l = []) :
    l = [] := by
  cases l with
  | nil => rfl
  | cons r rs =>
    by_cases hs : r.status = "success"
    · have : r ∈ doneOf (r :: rs) := by simp [doneOf, hs]
      simp [hd] at this
    · have : r ∈ todoOf (r :: rs) := by simp [todoOf, hs]
      simp [ht] at this

/-- After one run of `task_analyze`, the papers file shows id `x` with
    status success iff some record with that id was already recorded
    success, or some record with that id was present and the paper LLM
    oracle succeeds on `x`. -/
theorem taskAnalyze_success_iff (llmP llmN : LLMOracle) (now : Int)
    (s : AnalyzeFiles) (x : String) :
    diskShowsSuccess (taskAnalyze llmP llmN now s).1.papers x ↔
      ∃ r ∈ s.papers, r.id = x ∧ (r.status = "success" ∨ llmSucceeds llmP x) := by
  unfold taskAnalyze
  split
  · rename_i h
    simp [diskShowsSuccess, h.1]
  · split
    · rename_i h
      have hall : ∀ r ∈ s.papers, r.status = "success" := by
        intro r hr
        by_contra hns
        have hmem : r ∈ todoOf s.papers := by simp [todoOf, hns, hr]
        simp [h.1] at hmem
      constructor
      · rintro ⟨r, hr, hid, hs⟩
        exact ⟨r, hr, hid, Or.inl hs⟩
      · rintro ⟨r, hr, hid, _⟩
        exact ⟨r, hr, hid, hall r hr⟩
    · rename_i h1 h2
      simp only [diskShowsSuccess]
      split
      · rename_i hfin
        have hd : doneOf s.papers = [] := by
          cases he : doneOf s.papers with
          | nil => rfl
          | cons a t => rw [he] at hfin; simp at hfin
        have ht : todoOf s.papers = [] := by
          have : analyzeBatch llmP now (todoOf s.papers) = [] := by
            cases he : analyzeBatch llmP now (todoOf s.papers) with
            | nil => rfl
            | cons a t => rw [he] at hfin; simp at hfin
          unfold analyzeBatch at this
          exact List.map_eq_nil_iff.mp this
        have : s.papers = [] := doneOf_todoOf_nil hd ht
        simp [this]
      · simp only [List.mem_append, analyzeBatch, List.mem_map, doneOf, todoOf,
          List.mem_filter, decide_eq_true_eq]
        constructor
        · rintro ⟨r, hr, hid, hs⟩
          rcases hr with ⟨hr, hsucc⟩ | ⟨b, ⟨hb, hbs⟩, rfl⟩
          · exact ⟨r, hr, hid, Or.inl hsucc⟩
          · refine ⟨b, hb, ?_, ?_⟩
            · rw [analyzeOne_id] at hid; exact hid
            · right
              rw [analyzeOne_success_iff] at hs
              rw [analyzeOne_id] at hid
              rw [hid] at hs
              exact hs
        · rintro ⟨r, hr, hid, hsucc | hllm⟩
          · exact ⟨r, Or.inl ⟨hr, hsucc⟩, hid, hsucc⟩
          · by_cases hs : r.status = "success"
            · exact ⟨r, Or.inl ⟨hr, hs⟩, hid, hs⟩
            · refine ⟨analyzeOne llmP now r, Or.inr ⟨r, ⟨hr, hs⟩, rfl⟩, ?_, ?_⟩
              · rw [analyzeOne_id]; exact hid
              · rw [analyzeOne_success_iff, hid]
                exact hllm

/-- Concrete oracle for the C1 counterexample: the analysis of item `"b"`
    fails with a parse error, every other item succeeds. -/
def llmC1 : LLMOracle := fun i =>
  if i = "b" then LLMResult.parseErr "e" else LLMResult.ok "A"

/-- Concrete initial on-disk state for the C1 counterexample. -/
def sC1 : AnalyzeFiles :=
  { papers := [{ id := "a", status := "pending" },
               { id := "b", status := "pending" },
               { id := "c", status := "pending" }],
    news := [] }

/-- C1 (counterexample): running `analyze` twice is *not* content-idempotent
    for an arbitrary on-disk state.  If the first run leaves a failed record
    between two successful ones, the second run re-submits the failed record
    and rewrites the file with the successes first, so the on-disk order
    changes: content after run 2 differs from content after run 1. -/
theorem C1_counterexample :
    (taskAnalyze llmC1 llmC1 20 (taskAnalyze llmC1 llmC1 10 sC1).1).1
      ≠ (taskAnalyze llmC1 llmC1 10 sC1).1 := by decide

/-- C1 (amended): on the second back-to-back run of `analyze`, the number of
    LLM calls equals the number of records left without status `success` by
    the first run — in particular zero calls are issued for records already
    recorded `success` — and whenever the first run left every record with
    status `success`, the second run returns early and the on-disk content of
    both files is identical to the content after the first run. -/
theorem C1_analyze_rerun (llmP llmN : LLMOracle) (now1 now2 : Int)
    (s0 : AnalyzeFiles) :
    (taskAnalyze llmP llmN now2 (taskAnalyze llmP llmN now1 s0).1).2
        = countNonSuccess (taskAnalyze llmP llmN now1 s0).1
    ∧ (countNonSuccess (taskAnalyze llmP llmN now1 s0).1 = 0 →
        (taskAnalyze llmP llmN now2 (taskAnalyze llmP llmN now1 s0).1).1
          = (taskAnalyze llmP llmN now1 s0).1) :=
  ⟨taskAnalyze_calls llmP llmN now2 _,
   fun h => taskAnalyze_noop llmP llmN now2 _ h⟩

/-- Witness for `C1_analyze_rerun` at a concrete all-success state. -/
theorem C1_analyze_rerun_witness :
    countNonSuccess ((taskAnalyze (fun _ => LLMResult.ok "A")
        (fun _ => LLMResult.ok "A") 0
        { papers := [{ id := "a", status := "success" }], news := [] }).1) = 0
    ∧ (taskAnalyze (fun _ => LLMResult.ok "A") (fun _ => LLMResult.ok "A") 1
        ((taskAnalyze (fun _ => LLMResult.ok "A") (fun _ => LLMResult.ok "A") 0
          { papers := [{ id := "a", status := "success" }], news := [] }).1)).1
      = (taskAnalyze (fun _ => LLMResult.ok "A") (fun _ => LLMResult.ok "A") 0
          { papers := [{ id := "a", status := "success" }], news := [] }).1 :=
  ⟨by decide,
   (C1_analyze_rerun (fun _ => LLMResult.ok "A") (fun _ => LLMResult.ok "A")
      0 1 { papers := [{ id := "a", status := "success" }], news := [] }).2
     (by decide)⟩

/-- Concrete oracle for the C2 counterexample: every analysis succeeds. -/
def llmC2 : LLMOracle := fun _ => LLMResult.ok "A"

/-- Concrete on-disk state for the C2 counterexample: one pending record
    `"a"` and one failed record `"b"`; the analyzed tracker holds `"b"`. -/
def sC2 : AnalyzeFiles :=
  { papers := [{ id := "a", status := "pending" },
               { id := "b", status := "failed" }],
    news := [] }

/-- C2 (counterexample): at a concrete input the tracker/disk equivalence and
    the tracker-based submission policy both fail: after the run, `"a"` is
    shown on disk with status `success` but is not in the analyzed tracker
    (which `task_analyze` never updates), and `"b"` is submitted to the LLM
    even though its id is in the analyzed tracker. -/
theorem C2_counterexample :
    ¬ ((("a" ∈ analyzedTrackerAfterAnalyze ["b"]) ↔
          diskShowsSuccess (taskAnalyze llmC2 llmC2 0 sC2).1.papers "a")
       ∧ ∀ i ∈ submittedIds sC2, i ∉ analyzedTrackerAfterAnalyze ["b"]) := by
  decide

/-- C2 (amended): the analyze phase uses the on-disk `analysis_status` — not
    the analyzed IdsTracker — as its source of truth: the tracker state is
    returned unchanged (it is neither consulted nor updated); an id is
    submitted iff some loaded record with that id has status other than
    `success`; and after the run the papers file shows id `x` as `success`
    iff a record with that id was already `success` or was present and the
    paper LLM oracle succeeds on `x`. -/
theorem C2_analyze_source_of_truth (llmP llmN : LLMOracle) (now : Int)
    (tracker : List String) (s : AnalyzeFiles) (x : String) :
    analyzedTrackerAfterAnalyze tracker = tracker
    ∧ (x ∈ submittedIds s ↔
        ∃ r, (r ∈ s.papers ∨ r ∈ s.news) ∧ r.id = x ∧ ¬ r.status = "success")
    ∧ (diskShowsSuccess (taskAnalyze llmP llmN now s).1.papers x ↔
        ∃ r ∈ s.papers, r.id = x ∧ (r.status = "success" ∨ llmSucceeds llmP x)) := by
  refine ⟨rfl, ?_, taskAnalyze_success_iff llmP llmN now s x⟩
  simp only [submittedIds, todoOf, List.mem_append, List.mem_map,
    List.mem_filter, decide_eq_true_eq]
  constructor
  · rintro (⟨r, ⟨hr, hs⟩, hid⟩ | ⟨r, ⟨hr, hs⟩, hid⟩)
    · exact ⟨r, Or.inl hr, hid, hs⟩
    · exact ⟨r, Or.inr hr, hid, hs⟩
  · rintro ⟨r, hr | hr, hid, hs⟩
    · exact Or.inl ⟨r, ⟨hr, hs⟩, hid⟩
    · exact Or.inr ⟨r, ⟨hr, hs⟩, hid⟩

/-! ## Part 2: the deep-analysis writer ⇄ reviewer loop
    (src/agents/paper/deep_analyzer/: graph.py, nodes/writer.py,
    nodes/reviewer.py, and the report extraction in `run_deep_analysis`).

    The slice of `DeepAnalysisState` read and written by the writer and
    reviewer nodes is embedded as `DeepState`; the LangGraph convention that
    a node returns a partial update merged into the shared state is made
    explicit.  The writer's LLM call is abstracted as a function
    `DeepState → String` (its prompt is composed from state fields only),
    the reviewer's LLM call as a `ReviewerLLM` outcome. -/

/-- The writer/reviewer slice of `DeepAnalysisState` (state.py). -/
structure DeepState where
  draftReport : Option String := none
  reviewFeedback : Option String := none
  finalReport : Option String := none
  writeIterations : Nat := 0
  maxWriteIterations : Nat := 3
  nextAction : Option String := none
deriving DecidableEq, Repr

/-- `writer_node` (nodes/writer.py): produce a draft from the current state,
    increment `write_iterations`, clear `review_feedback`.  A writer-side LLM
    failure is folded into `writeFn` (the node catches it and stores an error
    report string as the draft). -/
def writerNode (writeFn : DeepState → String) (s : DeepState) : DeepState :=
  { s with draftReport := some (writeFn s),
           writeIterations := s.writeIterations + 1,
           reviewFeedback := none }

/-- One tool call produced by the reviewer LLM (nodes/reviewer.py). -/
inductive ReviewerToolCall where
  | approveReport (comment : String)
  | requestRevision (feedback : String)
deriving DecidableEq, Repr

/-- Outcome of the reviewer's LLM invocation: an `AIMessage` carrying a
    (possibly empty) list of tool calls, or a raised exception. -/
inductive ReviewerLLM where
  | response (toolCalls : List ReviewerToolCall)
  | exn (msg : String)
deriving DecidableEq, Repr

/-- The partial state update (`result` dict) built by `reviewer_node`. -/
structure ReviewerUpdate where
  finalReport : Option String := none
  reviewFeedback : Option String := none
  nextAction : Option String := none
deriving DecidableEq, Repr

/-- The per-tool-call loop of `reviewer_node`: `approve_report` records the
    draft as final report and `next_action = end`; `request_revision` records
    the feedback and `next_action = write`; a later call overwrites the keys
    it sets. -/
def reviewerFold (draft : String) (u : ReviewerUpdate) :
    ReviewerToolCall → ReviewerUpdate
  | .approveReport _ => { u with finalReport := some draft, nextAction := some "end" }
  | .requestRevision f => { u with reviewFeedback := some f, nextAction := some "write" }

/-- LangGraph merge of a node's partial update into the shared state: keys
    present in the update overwrite the state, absent keys keep it. -/
def applyReviewerUpdate (u : ReviewerUpdate) (s : DeepState) : DeepState :=
  { s with
    finalReport := match u.finalReport with
      | some v => some v
      | none => s.finalReport,
    reviewFeedback := match u.reviewFeedback with
      | some v => some v
      | none => s.reviewFeedback,
    nextAction := match u.nextAction with
      | some v => some v
      | none => s.nextAction }

/-- `reviewer_node` (nodes/reviewer.py): with no draft, end with the fixed
    report `"无报告内容"`; if the LLM raises, approve the current draft
    (`final_report = draft`, `next_action = end`); with no tool call, default
    approve; otherwise fold the tool calls into a partial update. -/
def reviewerNode (llm : ReviewerLLM) (s : DeepState) : DeepState :=
  let draft := s.draftReport.getD ""
  if draft = "" then
    { s with finalReport := some "无报告内容", nextAction := some "end" }
  else
    match llm with
    | .exn _ => { s with finalReport := some draft, nextAction := some "end" }
    | .response calls =>
        if calls = [] then
          { s with finalReport := some draft, nextAction := some "end" }
        else
          applyReviewerUpdate (calls.foldl (reviewerFold draft) {}) s

/-- `route_reviewer` (nodes/reviewer.py): once
    `write_iterations ≥ max_write_iterations` force `__end__` regardless of
    `next_action`; otherwise follow `next_action = "write"` back to the
    writer. -/
def routeReviewer (s : DeepState) : String :=
  if s.writeIterations ≥ s.maxWriteIterations then "__end__"
  else if s.nextAction = some "write" then "writer" else "__end__"

/-- The `writer → reviewer → (writer | END)` cycle of the compiled graph
    (graph.py), entered at the writer node, with enough fuel.  Returns the
    final state and the list of drafts produced by writer invocations, in
    order. -/
def runWriterReviewer (writeFn : DeepState → String)
    (reviewerOf : DeepState → ReviewerLLM) :
    Nat → DeepState → DeepState × List String
  | 0, s => (s, [])
  | fuel + 1, s =>
      let d := writeFn s
      let s1 := writerNode writeFn s
      let s2 := reviewerNode (reviewerOf s1) s1
      if routeReviewer s2 = "writer" then
        let r := runWriterReviewer writeFn reviewerOf fuel s2
        (r.1, d :: r.2)
      else (s2, [d])

/-- Report extraction in `run_deep_analysis`
    (src/agents/paper/deep_analyzer/__init__.py):
    `final_state.get("final_report") or final_state.get("draft_report", "")`,
    with a fixed fallback string when both are missing or empty. -/
def extractReport (s : DeepState) : String :=
  let fr := s.finalReport.getD ""
  let fr := if fr = "" then s.draftReport.getD "" else fr
  if fr = "" then "分析未能生成报告" else fr

theorem runWriterReviewer_revision_spec (writeFn : DeepState → String)
    (reviewerOf : DeepState → ReviewerLLM) (fbOf : DeepState → String)
    (hrev : ∀ t, reviewerOf t = ReviewerLLM.response
        [ReviewerToolCall.requestRevision (fbOf t)])
    (hw : ∀ t, writeFn t ≠ "") :
    ∀ fuel s, 1 ≤ fuel → s.maxWriteIterations = s.writeIterations + fuel →
      s.finalReport = none →
      ((runWriterReviewer writeFn reviewerOf fuel s).2).length = fuel
      ∧ (runWriterReviewer writeFn reviewerOf fuel s).1.writeIterations
          = s.maxWriteIterations
      ∧ (runWriterReviewer writeFn reviewerOf fuel s).1.maxWriteIterations
          = s.maxWriteIterations
      ∧ (runWriterReviewer writeFn reviewerOf fuel s).1.finalReport = none
      ∧ (runWriterReviewer writeFn reviewerOf fuel s).1.draftReport
          = ((runWriterReviewer writeFn reviewerOf fuel s).2).getLast?
      ∧ ∀ x ∈ (runWriterReviewer writeFn reviewerOf fuel s).2, x ≠ "" := by
  intro fuel
  induction fuel with
  | zero => intro s h; omega
  | succ f ih =>
    intro s hf hmax hfin
    have hstep : runWriterReviewer writeFn reviewerOf (f + 1) s =
        (let d := writeFn s
         let s1 := writerNode writeFn s
         let s2 := reviewerNode (reviewerOf s1) s1
         if routeReviewer s2 = "writer" then
           let r := runWriterReviewer writeFn reviewerOf f s2
           (r.1, d :: r.2)
         else (s2, [d])) := rfl
    set d := writeFn s with hd
    set s1 := writerNode writeFn s with hs1
    have hs2 : reviewerNode (reviewerOf s1) s1 =
        { s with draftReport := some d,
                 reviewFeedback := some (fbOf s1),
                 finalReport := none,
                 writeIterations := s.writeIterations + 1,
                 nextAction := some "write" } := by
      rw [hrev s1]
      unfold reviewerNode
      simp only [hs1, writerNode, Option.getD_some, hw s, if_neg (hw s)]
      simp [applyReviewerUpdate, reviewerFold, hfin]
    rcases Nat.lt_or_ge (f + 1) 2 with h2 | h2
    · -- f = 0 : the route check forces "__end__"
      have hf0 : f = 0 := by omega
      subst hf0
      have hroute : routeReviewer (reviewerNode (reviewerOf s1) s1) = "__end__" := by
        rw [hs2]
        unfold routeReviewer
        simp [hmax]
      rw [hstep]
      simp only [hroute]
      rw [if_neg (show ¬ ("__end__" : String) = "writer" by decide)]
      rw [hs2]
      refine ⟨by simp, by simp [hmax], by simp, by simp, by simp, ?_⟩
      intro x hx
      simp at hx
      rw [hx]
      exact hw s
    · -- f ≥ 1 : the route follows next_action back to the writer
      have hf1 : 1 ≤ f := by omega
      have hroute : routeReviewer (reviewerNode (reviewerOf s1) s1) = "writer" := by
        rw [hs2]
        unfold routeReviewer
        rw [if_neg (by simp; omega)]
        simp
      have hinv : (reviewerNode (reviewerOf s1) s1).maxWriteIterations =
          (reviewerNode (reviewerOf s1) s1).writeIterations + f := by
        rw [hs2]; simp; omega
      have hfin2 : (reviewerNode (reviewerOf s1) s1).finalReport = none := by
        rw [hs2]
      obtain ⟨hlen, hwi, hmaxi, hfini, hdrafti, hne⟩ :=
        ih (reviewerNode (reviewerOf s1) s1) hf1 hinv hfin2
      rw [hstep]
      simp only [hroute, if_pos]
      refine ⟨by simpa using hlen, ?_, ?_, hfini, ?_, ?_⟩
      · rw [hwi, hs2]
      · rw [hmaxi, hs2]
      · rw [hdrafti]
        cases hds : (runWriterReviewer writeFn reviewerOf f
            (reviewerNode (reviewerOf s1) s1)).2 with
        | nil => rw [hds] at hlen; simp at hlen; omega
        | cons e es => rw [List.getLast?_cons_cons]
      · intro x hx
        rcases List.mem_cons.mp hx with rfl | hx2
        · exact hw s
        · exact hne x hx2

/-- C3: in the deep-analysis graph, when the reviewer requests a revision on
    every iteration, the run still terminates: `route_reviewer` forces
    `__end__` whenever `write_iterations ≥ max_write_iterations`; starting at
    the writer with `write_iterations = 0` and cap `m ≥ 1`, the writer is
    invoked exactly `m` times, the final state has `write_iterations = m`,
    and the report extracted for the caller by `run_deep_analysis` equals
    the latest draft produced by the writer. -/
theorem C3_forced_termination (writeFn : DeepState → String)
    (reviewerOf : DeepState → ReviewerLLM) (fbOf : DeepState → String) (m : Nat)
    (hrev : ∀ t, reviewerOf t = ReviewerLLM.response
        [ReviewerToolCall.requestRevision (fbOf t)])
    (hw : ∀ t, writeFn t ≠ "") (hm : 1 ≤ m) :
    (∀ t : DeepState, t.maxWriteIterations ≤ t.writeIterations →
        routeReviewer t = "__end__")
    ∧ ((runWriterReviewer writeFn reviewerOf m { maxWriteIterations := m }).2).length = m
    ∧ (runWriterReviewer writeFn reviewerOf m
        { maxWriteIterations := m }).1.writeIterations = m
    ∧ ((runWriterReviewer writeFn reviewerOf m { maxWriteIterations := m }).2).getLast?
        = some (extractReport
            (runWriterReviewer writeFn reviewerOf m { maxWriteIterations := m }).1) := by
  obtain ⟨hlen, hwi, hmaxi, hfini, hdrafti, hnonnil⟩ :=
    runWriterReviewer_revision_spec writeFn reviewerOf fbOf hrev hw m
      { maxWriteIterations := m } hm (by simp) rfl
  refine ⟨?_, hlen, hwi, ?_⟩
  · intro t ht
    unfold routeReviewer
    rw [if_pos ht]
  · cases hds : ((runWriterReviewer writeFn reviewerOf m
        { maxWriteIterations := m }).2).getLast? with
    | none =>
      rw [List.getLast?_eq_none_iff] at hds
      rw [hds] at hlen
      simp at hlen
      omega
    | some d =>
      have hdmem : d ∈ (runWriterReviewer writeFn reviewerOf m
          { maxWriteIterations := m }).2 := by
        have := List.mem_getLast?_eq_getLast (l :=
          (runWriterReviewer writeFn reviewerOf m { maxWriteIterations := m }).2)
          (x := d) hds
        obtain ⟨h, rfl⟩ := this
        exact List.getLast_mem h
      have hdne : d ≠ "" := hnonnil d hdmem
      unfold extractReport
      rw [hfini]
      rw [hdrafti, hds]
      simp [hdne]

/-- Witness for `C3_forced_termination` with a constant writer draft, an
    always-revise reviewer and `max_write_iterations = 3`. -/
theorem C3_forced_termination_witness :
    ((runWriterReviewer (fun _ => "draft")
        (fun _ => ReviewerLLM.response [ReviewerToolCall.requestRevision "fix"]) 3
        { maxWriteIterations := 3 }).2).length = 3
    ∧ (runWriterReviewer (fun _ => "draft")
        (fun _ => ReviewerLLM.response [ReviewerToolCall.requestRevision "fix"]) 3
        { maxWriteIterations := 3 }).1.writeIterations = 3
    ∧ ((runWriterReviewer (fun _ => "draft")
        (fun _ => ReviewerLLM.response [ReviewerToolCall.requestRevision "fix"]) 3
        { maxWriteIterations := 3 }).2).getLast?
        = some (extractReport (runWriterReviewer (fun _ => "draft")
            (fun _ => ReviewerLLM.response [ReviewerToolCall.requestRevision "fix"]) 3
            { maxWriteIterations := 3 }).1) :=
  (C3_forced_termination (fun _ => "draft")
      (fun _ => ReviewerLLM.response [ReviewerToolCall.requestRevision "fix"])
      (fun _ => "fix") 3 (fun _ => rfl)
      (fun _ => show ("draft" : String) ≠ "" by decide) (by decide)).2

/-- C10: if the reviewer node's LLM call raises any exception while a draft
    is present, the node catches it and approves the current draft: the
    returned update sets `final_report` to the draft and `next_action` to
    `end` (the node stays total, so nothing propagates out of the graph),
    and `route_reviewer` then routes to `__end__` — never back to the
    writer. -/
theorem C10_reviewer_exception_approves (s : DeepState) (msg : String)
    (hd : ¬ s.draftReport.getD "" = "") :
    reviewerNode (ReviewerLLM.exn msg) s
      = { s with finalReport := some (s.draftReport.getD ""),
                 nextAction := some "end" }
    ∧ routeReviewer (reviewerNode (ReviewerLLM.exn msg) s) = "__end__" := by
  have h1 : reviewerNode (ReviewerLLM.exn msg) s
      = { s with finalReport := some (s.draftReport.getD ""),
                 nextAction := some "end" } := by
    unfold reviewerNode
    rw [if_neg hd]
  refine ⟨h1, ?_⟩
  rw [h1]
  unfold routeReviewer
  split
  · rfl
  · simp

/-- Witness for `C10_reviewer_exception_approves` at a concrete state. -/
theorem C10_reviewer_exception_witness :
    reviewerNode (ReviewerLLM.exn "boom")
        { draftReport := some "d", maxWriteIterations := 3 }
      = { draftReport := some "d", maxWriteIterations := 3,
          finalReport := some "d", nextAction := some "end" }
    ∧ routeReviewer (reviewerNode (ReviewerLLM.exn "boom")
        { draftReport := some "d", maxWriteIterations := 3 }) = "__end__" :=
  C10_reviewer_exception_approves
    { draftReport := some "d", maxWriteIterations := 3 } "boom" (by decide)

/-! ## Part 3: arXiv HTML fulltext
    (src/data_fetchers/arxiv/html_fulltext.py) and the deep-analysis entry
    point consuming it.

    The DOM traversal of `_build_sections` / `_collect_front_matter` is
    abstracted to its input: the linear, document-ordered sequence of
    `h2`–`h6` headings and `<p>` paragraph texts found under the content
    root (paragraph texts already normalized, as `_extract_paragraph_text`
    returns them).  Heading-number parsing (`_extract_number_and_title`, a
    regex) is abstracted as a parameter `parseHeading`. -/

/-- One item of the linearized content sequence collected by
    `_build_sections`: an `h2..h6` heading or a `<p>` paragraph. -/
inductive DomItem where
  | heading (level : Nat) (text : String)
  | para (text : String)
deriving DecidableEq, Repr

def DomItem.isHeading : DomItem → Bool
  | .heading _ _ => true
  | .para _ => false

/-- `ArxivHtmlSection`: one node of the section tree. -/
structure HtmlSection where
  level : Nat
  heading : String
  number : Option String
  title : String
  paragraphs : List String
  children : List HtmlSection
deriving Repr

/-- A flat section before tree assembly: the entries of `flat_sections`. -/
structure FlatSection where
  level : Nat
  heading : String
  number : Option String
  title : String
  paragraphs : List String
deriving DecidableEq, Repr

/-- Paragraph collection of one flat section: the non-empty `<p>` texts from
    just after its heading up to (excluding) the next heading of equal or
    lower level (`items[idx + 1 : end]` in `_build_sections`). -/
def parasUntil (lvl : Nat) : List DomItem → List String
  | [] => []
  | DomItem.heading l _ :: rest =>
      if l ≤ lvl then [] else parasUntil lvl rest
  | DomItem.para t :: rest =>
      if t = "" then parasUntil lvl rest else t :: parasUntil lvl rest

/-- The `flat_sections` list of `_build_sections`: one entry per heading, in
    document order, with level, heading text, parsed number/title and the
    paragraphs up to the next heading of equal or lower level. -/
def flatSections (parseHeading : String → Option String × String) :
    List DomItem → List FlatSection
  | [] => []
  | DomItem.heading l t :: rest =>
      { level := l, heading := t, number := (parseHeading t).1,
        title := (parseHeading t).2, paragraphs := parasUntil l rest }
        :: flatSections parseHeading rest
  | DomItem.para _ :: rest => flatSections parseHeading rest

/-- A stack frame of the tree-assembly loop: a section still open, with the
    children attached to it so far. -/
structure BuildFrame where
  level : Nat
  heading : String
  number : Option String
  title : String
  paragraphs : List String
  children : List HtmlSection
deriving Repr

def closeFrame (f : BuildFrame) : HtmlSection :=
  { level := f.level, heading := f.heading, number := f.number,
    title := f.title, paragraphs := f.paragraphs, children := f.children }

def frameOf (fs : FlatSection) : BuildFrame :=
  { level := fs.level, heading := fs.heading, number := fs.number,
    title := fs.title, paragraphs := fs.paragraphs, children := [] }

/-- `while stack and stack[-1][0] >= lvl: stack.pop()` — each completed
    section is attached to its parent's `children` (or to `roots` when the
    stack empties). -/
def popWhileGE (lvl : Nat) : List BuildFrame → List HtmlSection →
    List BuildFrame × List HtmlSection
  | [], roots => ([], roots)
  | [f], roots =>
      if lvl ≤ f.level then ([], roots ++ [closeFrame f]) else ([f], roots)
  | f :: g :: fs, roots =>
      if lvl ≤ f.level then
        popWhileGE lvl ({ g with children := g.children ++ [closeFrame f] } :: fs) roots
      else (f :: g :: fs, roots)
termination_by stack _ => stack.length

/-- The stack loop of `_build_sections` over the flat section list, followed
    by draining the stack (every still-open section closes at the end of the
    document). -/
def assembleGo : List FlatSection → List BuildFrame → List HtmlSection →
    List HtmlSection
  | [], stack, roots => (popWhileGE 0 stack roots).2
  | fs :: rest, stack, roots =>
      let pr := popWhileGE fs.level stack roots
      assembleGo rest (frameOf fs :: pr.1) pr.2

/-- `_build_sections`: no `h2..h6` heading in the content sequence means no
    sections; otherwise the flat sections are assembled into a tree with the
    running stack. -/
def buildSections (parseHeading : String → Option String × String)
    (items : List DomItem) : List HtmlSection :=
  if items.all (fun i => ¬ i.isHeading) then []
  else assembleGo (flatSections parseHeading items) [] []

/-- `_collect_front_matter`: non-empty `<p>` texts before the first heading,
    stopping once 30 paragraphs are collected. -/
def collectFrontMatterGo : Nat → List DomItem → List String
  | _, [] => []
  | _, DomItem.heading _ _ :: _ => []
  | n, DomItem.para t :: rest =>
      if t = "" then collectFrontMatterGo n rest
      else if 30 ≤ n + 1 then [t]
      else t :: collectFrontMatterGo (n + 1) rest

def collectFrontMatter (items : List DomItem) : List String :=
  collectFrontMatterGo 0 items

/-- The HTTP response for `https://arxiv.org/html/{id}{vN}`. -/
structure ArxivHtmlResponse where
  status : Nat
  html : String
deriving DecidableEq, Repr

/-- `ArxivHtmlFulltext` (src/models/arxiv_html_fulltext.py), with the
    source/stats fields collapsed to what the claims inspect. -/
structure ArxivHtmlFulltext where
  paperId : String
  title : String
  abstract : String
  authors : List String
  frontMatterParagraphs : List String
  sections : List HtmlSection
  htmlChars : Nat
deriving Repr

/-- `fetch_arxiv_html_fulltext`: any fetch/parse failure is an error for the
    caller to treat as "deep analysis failed".  Inputs abstract the network:
    `versionResult` is the outcome of `resolve_latest_version`, `metadata`
    the outcome of `fetch_arxiv_metadata` (title, abstract, authors), `resp`
    the HTML response and `items` the linearized content sequence parsed
    from its body. -/
def fetchArxivHtmlFulltext (paperId : String)
    (versionResult : Except String String)
    (metadata : Except String (String × String × List String))
    (resp : ArxivHtmlResponse) (items : List DomItem)
    (parseHeading : String → Option String × String) :
    Except String ArxivHtmlFulltext :=
  if paperId.trim = "" then Except.error "paper_id 不能为空"
  else
    match versionResult with
    | Except.error e => Except.error e
    | Except.ok _version =>
        match metadata with
        | Except.error e => Except.error e
        | Except.ok md =>
            if ¬ resp.status = 200 then
              Except.error ("arXiv HTML 不存在或不可访问: HTTP " ++ toString resp.status)
            else if resp.html.length < 1000 then
              Except.error "arXiv HTML 内容为空或过短，判定为不可用"
            else if (buildSections parseHeading items).isEmpty then
              Except.error "arXiv HTML 未解析出章节结构，判定深度分析失败"
            else
              Except.ok
                { paperId := paperId.trim, title := md.1, abstract := md.2.1,
                  authors := md.2.2,
                  frontMatterParagraphs := collectFrontMatter items,
                  sections := buildSections parseHeading items,
                  htmlChars := resp.html.length }

/-- Modelled from the spec: the HTML-variant `deep_analysis` entry point is
    missing from src/ — src/scripts/deep_analysis.py is the earlier variant
    that never invokes `fetch_arxiv_html_fulltext` (the function is defined
    but uncalled in the tree).  Per spec §4.F "Preprocessing: §4.D must
    succeed; on failure the whole deep-analysis fails", §6 exit codes
    (0 success, 1 argument error, 2 paper not found, 3 analysis failure) and
    the filesystem layout (`analysis/deep/{paper_id}.md` written only for a
    produced report).  Returns the exit code and the list of files written
    as (path, content) pairs. -/
def deepAnalysisMainModel (titleParse : Option (String × String))
    (paper : Option String)
    (fulltext : Except String ArxivHtmlFulltext)
    (analysis : Except String String) : Nat × List (String × String) :=
  match titleParse with
  | none => (1, [])
  | some (pid, _title) =>
      match paper with
      | none => (2, [])
      | some _ =>
          match fulltext with
          | Except.error _ => (3, [])
          | Except.ok _ =>
              match analysis with
              | Except.error _ => (3, [])
              | Except.ok report =>
                  (0, [("analysis/deep/" ++ pid ++ ".md", report)])

theorem buildSections_of_no_heading (parseHeading : String → Option String × String)
    (items : List DomItem) (h : ∀ i ∈ items, i.isHeading = false) :
    buildSections parseHeading items = [] := by
  unfold buildSections
  rw [if_pos]
  rw [List.all_eq_true]
  intro i hi
  simp [h i hi]

/-- C4: if the arXiv HTML fulltext step fails for the requested paper —
    HTTP status other than 200, a body shorter than 1000 characters, or no
    parseable `h2..h6` heading in the content — then
    `fetch_arxiv_html_fulltext` raises, and the deep-analysis entry point
    exits with code 3 and writes no `.md` file under `analysis/deep/`. -/
theorem C4_fulltext_failure_exit3 (pid ptitle paperMeta : String)
    (versionResult : Except String String)
    (metadata : Except String (String × String × List String))
    (resp : ArxivHtmlResponse) (items : List DomItem)
    (parseHeading : String → Option String × String)
    (analysis : Except String String)
    (hfail : ¬ resp.status = 200 ∨ resp.html.length < 1000
      ∨ ∀ i ∈ items, i.isHeading = false) :
    (∃ e, fetchArxivHtmlFulltext pid versionResult metadata resp items parseHeading
        = Except.error e)
    ∧ deepAnalysisMainModel (some (pid, ptitle)) (some paperMeta)
        (fetchArxivHtmlFulltext pid versionResult metadata resp items parseHeading)
        analysis = (3, []) := by
  have herr : ∃ e, fetchArxivHtmlFulltext pid versionResult metadata resp items
      parseHeading = Except.error e := by
    unfold fetchArxivHtmlFulltext
    split
    · exact ⟨_, rfl⟩
    · cases versionResult with
      | error e => exact ⟨e, rfl⟩
      | ok v =>
        cases metadata with
        | error e => exact ⟨e, rfl⟩
        | ok md =>
          dsimp only
          by_cases hs : ¬ resp.status = 200
          · rw [if_pos hs]
            exact ⟨_, rfl⟩
          · rw [if_neg hs]
            by_cases hl : resp.html.length < 1000
            · rw [if_pos hl]
              exact ⟨_, rfl⟩
            · rw [if_neg hl]
              have hnh : ∀ i ∈ items, i.isHeading = false := by
                rcases hfail with hf | hf | hf
                · exact absurd hf hs
                · exact absurd hf hl
                · exact hf
              rw [buildSections_of_no_heading parseHeading items hnh]
              rw [if_pos (by simp)]
              exact ⟨_, rfl⟩
  obtain ⟨e, he⟩ := herr
  refine ⟨⟨e, he⟩, ?_⟩
  rw [he]
  rfl

/-- Witness for `C4_fulltext_failure_exit3`: a 404 response for the HTML of
    paper `2501.12345`. -/
theorem C4_fulltext_failure_exit3_witness :
    (∃ e, fetchArxivHtmlFulltext "2501.12345" (Except.ok "v1")
        (Except.ok ("X", "abs", [])) { status := 404, html := "" } []
        (fun t => (none, t)) = Except.error e)
    ∧ deepAnalysisMainModel (some ("2501.12345", "X")) (some "meta")
        (fetchArxivHtmlFulltext "2501.12345" (Except.ok "v1")
          (Except.ok ("X", "abs", [])) { status := 404, html := "" } []
          (fun t => (none, t)))
        (Except.ok "report") = (3, []) :=
  C4_fulltext_failure_exit3 "2501.12345" "X" "meta" (Except.ok "v1")
    (Except.ok ("X", "abs", [])) { status := 404, html := "" } []
    (fun t => (none, t)) (Except.ok "report") (Or.inl (by decide))

/-! ## Part 4: arXiv client rate limiting
    (src/data_fetchers/arxiv/client.py, `_rate_limited_request` and
    `_fetch_category_paginated`).

    `fetch_recent_papers` launches one `_rate_limited_request` per category;
    `asyncio.Semaphore(1)` serializes them, so the execution is a sequence of
    category batches.  Each batch first sleeps until `delay_between_requests`
    seconds have passed since `_last_request_time`, then issues its page
    requests strictly sequentially and back-to-back, and finally stores the
    completion time in `_last_request_time`.  Times and durations are
    modelled as integers; the inputs are the per-category lists of page
    request durations, in semaphore-acquisition order. -/

/-- The page loop of `_fetch_category_paginated`: starting at time `c`, issue
    one request per duration, each starting when the previous one completes.
    Returns the (start, end) events and the completion time. -/
def runPages : Int → List Int → List (Int × Int) × Int
  | c, [] => ([], c)
  | c, d :: ds =>
      ((c, c + d) :: (runPages (c + d) ds).1, (runPages (c + d) ds).2)

/-- The backoff wait of `_rate_limited_request`:
    `elapsed = now - _last_request_time; if elapsed < delay: sleep(...)`. -/
def sleepUntil (delay : Int) (st : Int × Int) : Int :=
  if st.1 - st.2 < delay then st.2 + delay else st.1

/-- `_rate_limited_request` for one category, under the semaphore: sleep
    until `delay` seconds have passed since `_last_request_time` (`st.2`),
    run the paginated fetch from the current clock (`st.1`), then record the
    completion time as the new `_last_request_time`. -/
def runCategory (delay : Int) (st : Int × Int) (pages : List Int) :
    List (Int × Int) × (Int × Int) :=
  ((runPages (sleepUntil delay st) pages).1,
   ((runPages (sleepUntil delay st) pages).2,
    (runPages (sleepUntil delay st) pages).2))

def arxivTraceGo (delay : Int) : Int × Int → List (List Int) →
    List (List (Int × Int))
  | _, [] => []
  | st, pages :: rest =>
      (runCategory delay st pages).1
        :: arxivTraceGo delay (runCategory delay st pages).2 rest

/-- Per-category request events of one `fetch_recent_papers` call started at
    clock `t0` (the client is fresh: `_last_request_time = 0.0`), for the
    given per-category page durations in semaphore-acquisition order. -/
def arxivTrace (delay t0 : Int) (cats : List (List Int)) :
    List (List (Int × Int)) :=
  arxivTraceGo delay (t0, 0) cats

/-- The spacing property asserted by the claim: at least `delay` seconds
    between the completion of any request and the start of the next one. -/
def spacingOK (delay : Int) (evs : List (Int × Int)) : Prop :=
  List.Chain' (fun a b => a.2 + delay ≤ b.1) evs

/-- The spacing guarantee the code actually provides: between the completion
    of one category batch and the first request of the next category batch. -/
def catGapOK (delay : Int) (seg1 seg2 : List (Int × Int)) : Prop :=
  ∀ a ∈ seg1.getLast?, ∀ b ∈ seg2.head?, a.2 + delay ≤ b.1

theorem runPages_chain (c : Int) (ds : List Int) :
    List.Chain' (fun a b : Int × Int => a.2 ≤ b.1) (runPages c ds).1 := by
  induction ds generalizing c with
  | nil => simp [runPages]
  | cons d rest ih =>
    rw [runPages, List.chain'_cons']
    refine ⟨?_, ih (c + d)⟩
    intro b hb
    cases hrest : rest with
    | nil =>
      rw [hrest] at hb
      simp [runPages] at hb
    | cons e es =>
      rw [hrest, runPages] at hb
      simp only [List.head?_cons, Option.mem_def, Option.some.injEq] at hb
      rw [← hb]

theorem runPages_ne_nil (c : Int) (d : Int) (ds : List Int) :
    (runPages c (d :: ds)).1 ≠ [] := by
  rw [runPages]
  simp

theorem runPages_getLast_snd (c : Int) (ds : List Int) :
    ∀ a ∈ (runPages c ds).1.getLast?, a.2 = (runPages c ds).2 := by
  induction ds generalizing c with
  | nil => simp [runPages]
  | cons d rest ih =>
    intro a ha
    cases hrest : rest with
    | nil =>
      subst hrest
      simp only [runPages, List.getLast?_singleton, Option.mem_def,
        Option.some.injEq] at ha
      rw [← ha]
      rfl
    | cons e es =>
      subst hrest
      have hne : (runPages (c + d) (e :: es)).1 ≠ [] := runPages_ne_nil _ _ _
      rcases hl : (runPages (c + d) (e :: es)).1 with _ | ⟨p, ps⟩
      · exact absurd hl hne
      · rw [runPages, hl, List.getLast?_cons_cons] at ha
        have hmem : a ∈ (runPages (c + d) (e :: es)).1.getLast? := by
          rw [hl]
          exact ha
        exact ih (c + d) a hmem

theorem runCategory_head_start (delay : Int) (st : Int × Int)
    (pages : List Int) :
    ∀ b ∈ (runCategory delay st pages).1.head?,
      st.2 + delay ≤ b.1 ∧ st.1 ≤ b.1 := by
  intro b hb
  cases pages with
  | nil => simp [runCategory, runPages] at hb
  | cons d ds =>
    rw [runCategory, runPages] at hb
    simp only [List.head?_cons, Option.mem_def, Option.some.injEq] at hb
    rw [← hb]
    unfold sleepUntil
    split <;> constructor <;> omega

theorem runCategory_last_end (delay : Int) (st : Int × Int)
    (pages : List Int) :
    ∀ a ∈ (runCategory delay st pages).1.getLast?,
      a.2 = (runCategory delay st pages).2.2 :=
  fun a ha => runPages_getLast_snd (sleepUntil delay st) pages a ha

theorem arxivTraceGo_gap_chain (delay : Int) :
    ∀ (cats : List (List Int)) (st : Int × Int),
      List.Chain' (catGapOK delay) (arxivTraceGo delay st cats) := by
  intro cats
  induction cats with
  | nil => intro st; simp [arxivTraceGo]
  | cons pages rest ih =>
    intro st
    rw [arxivTraceGo, List.chain'_cons']
    refine ⟨?_, ih _⟩
    intro seg hseg a ha b hb
    cases rest with
    | nil => simp [arxivTraceGo] at hseg
    | cons pages2 rest2 =>
      rw [arxivTraceGo] at hseg
      simp only [List.head?_cons, Option.mem_def, Option.some.injEq] at hseg
      subst hseg
      have h1 := runCategory_last_end delay st pages a ha
      have h2 := runCategory_head_start delay (runCategory delay st pages).2
        pages2 b hb
      rw [h1]
      exact h2.1

theorem arxivTraceGo_boundary_chain (delay : Int) :
    ∀ (cats : List (List Int)) (st : Int × Int),
      List.Chain' (fun s t : List (Int × Int) =>
          ∀ a ∈ s.getLast?, ∀ b ∈ t.head?, a.2 ≤ b.1)
        (arxivTraceGo delay st cats) := by
  intro cats
  induction cats with
  | nil => intro st; simp [arxivTraceGo]
  | cons pages rest ih =>
    intro st
    rw [arxivTraceGo, List.chain'_cons']
    refine ⟨?_, ih _⟩
    intro seg hseg a ha b hb
    cases rest with
    | nil => simp [arxivTraceGo] at hseg
    | cons pages2 rest2 =>
      rw [arxivTraceGo] at hseg
      simp only [List.head?_cons, Option.mem_def, Option.some.injEq] at hseg
      subst hseg
      have h1 := runCategory_last_end delay st pages a ha
      have h2 := runCategory_head_start delay (runCategory delay st pages).2
        pages2 b hb
      rw [h1]
      exact h2.2

theorem arxivTraceGo_no_nil (delay : Int) :
    ∀ (cats : List (List Int)) (st : Int × Int), (∀ p ∈ cats, p ≠ []) →
      [] ∉ arxivTraceGo delay st cats := by
  intro cats
  induction cats with
  | nil => intro st h; simp [arxivTraceGo]
  | cons pages rest ih =>
    intro st h
    rw [arxivTraceGo]
    intro hmem
    rcases List.mem_cons.mp hmem with hhd | htl
    · cases hp : pages with
      | nil => exact h [] (by simp [hp]) rfl
      | cons d ds =>
        rw [hp] at hhd
        exact runPages_ne_nil (sleepUntil delay st) d ds hhd.symm
    · exact ih (runCategory delay st pages).2
        (fun p hp => h p (List.mem_cons_of_mem _ hp)) htl

theorem arxivTraceGo_segments_chain (delay : Int) :
    ∀ (cats : List (List Int)) (st : Int × Int)
      (seg : List (Int × Int)), seg ∈ arxivTraceGo delay st cats →
      List.Chain' (fun a b : Int × Int => a.2 ≤ b.1) seg := by
  intro cats
  induction cats with
  | nil => intro st seg h; simp [arxivTraceGo] at h
  | cons pages rest ih =>
    intro st seg h
    rw [arxivTraceGo] at h
    rcases List.mem_cons.mp h with rfl | htl
    · exact runPages_chain (sleepUntil delay st) pages
    · exact ih (runCategory delay st pages).2 seg htl

instance (delay : Int) (evs : List (Int × Int)) : Decidable (spacingOK delay evs) :=
  inferInstanceAs (Decidable (List.Chain' (fun a b : Int × Int => a.2 + delay ≤ b.1) evs))

/-- C5 (counterexample): with `delay_between_requests = 3`, a client started
    at time 100 fetching one category whose pagination issues two page
    requests of one second each produces the events
    `(100,101), (101,102)`: the second page request starts the moment the
    first completes, with no spacing — the claimed minimum spacing between
    the completion of any request and the start of the next fails for
    successive pagination requests within a single category. -/
theorem C5_counterexample :
    ¬ spacingOK 3 (arxivTrace 3 100 [[1, 1]]).flatten := by
  intro h
  have hev : (arxivTrace 3 100 [[1, 1]]).flatten
      = [((100 : Int), (101 : Int)), (101, 102)] := by
    norm_num [arxivTrace, arxivTraceGo, runCategory, runPages, sleepUntil]
  unfold spacingOK at h
  rw [hev, List.chain'_cons] at h
  have h1 := h.1
  simp at h1

/-- C5 (amended): the semaphore gate does serialize requests — across the
    whole fetch, every request starts no earlier than the previous one
    completed (at most one in flight) — and the `delay_between_requests`
    spacing is guaranteed between the completion of one *category batch*
    and the first request of the next category; successive pagination
    requests within a single category are issued back-to-back with no
    enforced spacing. -/
theorem C5_rate_limit_serialized (delay t0 : Int) (cats : List (List Int))
    (hne : ∀ p ∈ cats, p ≠ []) :
    List.Chain' (fun a b : Int × Int => a.2 ≤ b.1)
      (arxivTrace delay t0 cats).flatten
    ∧ List.Chain' (catGapOK delay) (arxivTrace delay t0 cats) := by
  constructor
  · have hnn : [] ∉ arxivTrace delay t0 cats :=
      arxivTraceGo_no_nil delay cats (t0, 0) hne
    rw [List.chain'_flatten hnn]
    exact ⟨fun seg hseg => arxivTraceGo_segments_chain delay cats (t0, 0) seg hseg,
      arxivTraceGo_boundary_chain delay cats (t0, 0)⟩
  · exact arxivTraceGo_gap_chain delay cats (t0, 0)

/-- Witness for `C5_rate_limit_serialized`: two categories of one and two
    pages respectively, `delay = 3`, started at time 100. -/
theorem C5_rate_limit_serialized_witness :
    List.Chain' (fun a b : Int × Int => a.2 ≤ b.1)
      (arxivTrace 3 100 [[1], [2, 1]]).flatten
    ∧ List.Chain' (catGapOK 3) (arxivTrace 3 100 [[1], [2, 1]]) :=
  C5_rate_limit_serialized 3 100 [[1], [2, 1]] (by decide)

/-! ## Part 5: `fetch_recent_papers` post-processing
    (src/data_fetchers/arxiv/client.py).

    The per-category HTTP results are the input (`results`, one successful
    list per category that did not exhaust its retries); the function merges
    them, deduplicates by id with first occurrence winning, keeps only
    papers whose `primary_category` is a target category, and applies the
    time window with `latest = max(published, updated)`. -/

/-- A fetched `Paper`, restricted to the fields this post-processing
    inspects. -/
structure ArxPaper where
  id : String
  primaryCategory : String
  published : Int
  updated : Option Int
deriving DecidableEq, Repr

/-- `_latest_time` / the filtering rule `latest = max(published, updated)`
    of `_filter_by_hours`. -/
def latestTime (p : ArxPaper) : Int :=
  match p.updated with
  | some u => max p.published u
  | none => p.published

/-- The id-dedup loop of `fetch_recent_papers`: walk the merged list with a
    `seen` set; the first occurrence of each id wins. -/
def dedupById (seen : List String) : List ArxPaper → List ArxPaper
  | [] => []
  | p :: ps =>
      if p.id ∈ seen then dedupById seen ps
      else p :: dedupById (p.id :: seen) ps

/-- `fetch_recent_papers` (post-fetch part): merge per-category results,
    dedup by id, keep `primary_category ∈ categories`, then keep papers with
    `latest ≥ now - hours` (`_filter_by_hours`). -/
def fetchRecentPapers (categories : List String) (now hours : Int)
    (results : List (List ArxPaper)) : List ArxPaper :=
  let allPapers := results.flatten
  let uniquePapers := dedupById [] allPapers
  let filteredPapers := uniquePapers.filter
    (fun p => p.primaryCategory ∈ categories)
  filteredPapers.filter (fun p => now - hours ≤ latestTime p)

theorem dedupById_spec (l : List ArxPaper) :
    ∀ seen, ∀ p ∈ dedupById seen l,
      p.id ∉ seen ∧ l.find? (fun q => q.id = p.id) = some p := by
  induction l with
  | nil => intro seen p hp; simp [dedupById] at hp
  | cons q qs ih =>
    intro seen p hp
    rw [dedupById] at hp
    by_cases hq : q.id ∈ seen
    · rw [if_pos hq] at hp
      obtain ⟨hns, hfind⟩ := ih seen p hp
      refine ⟨hns, ?_⟩
      rw [List.find?_cons_of_neg, hfind]
      simp only [decide_eq_true_eq]
      intro hqp
      exact hns (hqp ▸ hq)
    · rw [if_neg hq] at hp
      rcases List.mem_cons.mp hp with rfl | hp2
      · refine ⟨hq, ?_⟩
        rw [List.find?_cons_of_pos]
        simp
      · obtain ⟨hns, hfind⟩ := ih (q.id :: seen) p hp2
        have hne : ¬ p.id = q.id := fun h => hns (by simp [h])
        refine ⟨fun h => hns (List.mem_cons_of_mem _ h), ?_⟩
        rw [List.find?_cons_of_neg, hfind]
        simp only [decide_eq_true_eq]
        intro h
        exact hne h.symm

theorem dedupById_nodup (l : List ArxPaper) :
    ∀ seen, ((dedupById seen l).map ArxPaper.id).Nodup := by
  induction l with
  | nil => intro seen; simp [dedupById]
  | cons q qs ih =>
    intro seen
    rw [dedupById]
    by_cases hq : q.id ∈ seen
    · rw [if_pos hq]
      exact ih seen
    · rw [if_neg hq]
      rw [List.map_cons, List.nodup_cons]
      refine ⟨?_, ih (q.id :: seen)⟩
      intro hmem
      rw [List.mem_map] at hmem
      obtain ⟨p, hp, hpid⟩ := hmem
      exact (dedupById_spec qs (q.id :: seen) p hp).1 (by simp [hpid])

/-- C6: every paper returned by `fetch_recent_papers` has
    `max(published, updated) ≥ now - hours` and a `primary_category` among
    the requested categories; no two returned papers share an id; and when
    an id occurs several times across the merged category results, the first
    occurrence is the one returned. -/
theorem C6_fetch_recent_papers (categories : List String) (now hours : Int)
    (results : List (List ArxPaper)) :
    (∀ p ∈ fetchRecentPapers categories now hours results,
        now - hours ≤ latestTime p
        ∧ p.primaryCategory ∈ categories
        ∧ results.flatten.find? (fun q => q.id = p.id) = some p)
    ∧ ((fetchRecentPapers categories now hours results).map ArxPaper.id).Nodup := by
  constructor
  · intro p hp
    unfold fetchRecentPapers at hp
    simp only [List.mem_filter, decide_eq_true_eq] at hp
    obtain ⟨⟨hdedup, hcat⟩, hwin⟩ := hp
    exact ⟨hwin, hcat, (dedupById_spec results.flatten [] p hdedup).2⟩
  · unfold fetchRecentPapers
    have hsub : List.Sublist
        (((dedupById [] results.flatten).filter
            (fun p => p.primaryCategory ∈ categories)).filter
          (fun p => now - hours ≤ latestTime p))
        (dedupById [] results.flatten) :=
      (List.filter_sublist _).trans (List.filter_sublist _)
    exact (dedupById_nodup results.flatten []).sublist (hsub.map ArxPaper.id)

/-- Concrete papers for the `C6_fetch_recent_papers` witness: two entries
    sharing id `"a"`; the first occurrence wins. -/
def pA : ArxPaper :=
  { id := "a", primaryCategory := "cs.AI", published := 90, updated := none }

def pB : ArxPaper :=
  { id := "a", primaryCategory := "cs.AI", published := 95, updated := some 99 }

/-- Witness for `C6_fetch_recent_papers` at a concrete fetch. -/
theorem C6_fetch_recent_papers_witness :
    (100 - 30 ≤ latestTime pA
     ∧ pA.primaryCategory ∈ ["cs.AI"]
     ∧ ([pA, pB] : List ArxPaper).find? (fun q => q.id = pA.id) = some pA)
    ∧ ((fetchRecentPapers ["cs.AI"] 100 30 [[pA, pB]]).map ArxPaper.id).Nodup :=
  ⟨by
    have h := (C6_fetch_recent_papers ["cs.AI"] 100 30 [[pA, pB]]).1 pA (by decide)
    simpa using h,
   (C6_fetch_recent_papers ["cs.AI"] 100 30 [[pA, pB]]).2⟩

/-! ## Part 6: `NewsFetcher.fetch_all`
    (src/data_fetchers/news/fetcher.py).

    The RSS and crawler family results are the inputs (their per-source
    fetching is out of the claim); the post-merge pipeline is: time filter,
    in-batch dedup by id (`_dedup_by_url`), history dedup against the
    `fetched` tracker's news ids, and a stable sort by
    `(weight, published)` descending.  `weight` is modelled as an integer
    (only its ordering matters to the claims). -/

/-- A `NewsItem`, restricted to the fields `fetch_all` inspects. -/
structure NewsRec where
  id : String
  weight : Int
  published : Int
deriving DecidableEq, Repr

/-- The sort key ordering of `sorted(key=(weight, published), reverse=True)`:
    weight descending, then published descending. -/
def newsKeyGE (a b : NewsRec) : Prop :=
  b.weight < a.weight ∨ (a.weight = b.weight ∧ b.published ≤ a.published)

instance : DecidableRel newsKeyGE := fun a b =>
  inferInstanceAs
    (Decidable (b.weight < a.weight ∨ (a.weight = b.weight ∧ b.published ≤ a.published)))

instance : IsTotal NewsRec newsKeyGE := by
  constructor
  intro a b
  unfold newsKeyGE
  omega

instance : IsTrans NewsRec newsKeyGE := by
  constructor
  intro a b c hab hbc
  unfold newsKeyGE at *
  omega

/-- `_dedup_by_url`: in-batch dedup by id, first occurrence wins. -/
def dedupNewsById (seen : List String) : List NewsRec → List NewsRec
  | [] => []
  | i :: is =>
      if i.id ∈ seen then dedupNewsById seen is
      else i :: dedupNewsById (i.id :: seen) is

/-- `NewsFetcher.fetch_all`, post-merge part: merge the two family results,
    drop items older than `now - hours`, dedup by id within the batch,
    subtract the `fetched` tracker's news ids, and sort by
    `(weight, published)` descending (Python's `sorted` is stable;
    `insertionSort` is its stable counterpart here). -/
def newsFetchAll (now hours : Int) (trackerNews : List String)
    (rssItems crawlerItems : List NewsRec) : List NewsRec :=
  let allItems := rssItems ++ crawlerItems
  let filteredItems := allItems.filter (fun i => now - hours ≤ i.published)
  let uniqueItems := dedupNewsById [] filteredItems
  let newItems := uniqueItems.filter (fun i => i.id ∉ trackerNews)
  List.insertionSort newsKeyGE newItems

theorem dedupNewsById_subset (l : List NewsRec) :
    ∀ seen, ∀ i ∈ dedupNewsById seen l, i ∈ l := by
  induction l with
  | nil => intro seen i hi; simp [dedupNewsById] at hi
  | cons j js ih =>
    intro seen i hi
    rw [dedupNewsById] at hi
    by_cases hj : j.id ∈ seen
    · rw [if_pos hj] at hi
      exact List.mem_cons_of_mem _ (ih seen i hi)
    · rw [if_neg hj] at hi
      rcases List.mem_cons.mp hi with rfl | hi2
      · exact List.mem_cons_self _ _
      · exact List.mem_cons_of_mem _ (ih (j.id :: seen) i hi2)

theorem dedupNewsById_not_seen (l : List NewsRec) :
    ∀ seen, ∀ i ∈ dedupNewsById seen l, i.id ∉ seen := by
  induction l with
  | nil => intro seen i hi; simp [dedupNewsById] at hi
  | cons j js ih =>
    intro seen i hi
    rw [dedupNewsById] at hi
    by_cases hj : j.id ∈ seen
    · rw [if_pos hj] at hi
      exact ih seen i hi
    · rw [if_neg hj] at hi
      rcases List.mem_cons.mp hi with rfl | hi2
      · exact hj
      · exact fun h => ih (j.id :: seen) i hi2 (List.mem_cons_of_mem _ h)

theorem dedupNewsById_nodup (l : List NewsRec) :
    ∀ seen, ((dedupNewsById seen l).map NewsRec.id).Nodup := by
  induction l with
  | nil => intro seen; simp [dedupNewsById]
  | cons j js ih =>
    intro seen
    rw [dedupNewsById]
    by_cases hj : j.id ∈ seen
    · rw [if_pos hj]
      exact ih seen
    · rw [if_neg hj]
      rw [List.map_cons, List.nodup_cons]
      refine ⟨?_, ih (j.id :: seen)⟩
      intro hmem
      rw [List.mem_map] at hmem
      obtain ⟨i, hi, hid⟩ := hmem
      exact dedupNewsById_not_seen js (j.id :: seen) i hi (by simp [hid])

/-- C7: every item returned by `fetch_all` is within the time window
    (`published ≥ now - hours`), no returned id is in the fetched tracker's
    news set, no two returned items share an id, and the returned list is
    sorted by weight descending then published descending. -/
theorem C7_news_fetch_all (now hours : Int) (trackerNews : List String)
    (rssItems crawlerItems : List NewsRec) :
    (∀ i ∈ newsFetchAll now hours trackerNews rssItems crawlerItems,
        now - hours ≤ i.published ∧ i.id ∉ trackerNews)
    ∧ ((newsFetchAll now hours trackerNews rssItems crawlerItems).map
        NewsRec.id).Nodup
    ∧ (newsFetchAll now hours trackerNews rssItems crawlerItems).Sorted
        newsKeyGE := by
  have hperm : List.Perm
      (newsFetchAll now hours trackerNews rssItems crawlerItems)
      ((dedupNewsById []
          ((rssItems ++ crawlerItems).filter
            (fun i => now - hours ≤ i.published))).filter
        (fun i => i.id ∉ trackerNews)) :=
    List.perm_insertionSort newsKeyGE _
  refine ⟨?_, ?_, List.sorted_insertionSort newsKeyGE _⟩
  · intro i hi
    have hi2 := hperm.mem_iff.mp hi
    simp only [List.mem_filter, decide_eq_true_eq] at hi2
    obtain ⟨hdedup, htr⟩ := hi2
    have hin := dedupNewsById_subset _ [] i hdedup
    simp only [List.mem_filter, decide_eq_true_eq] at hin
    exact ⟨hin.2, htr⟩
  · have hnodup : (((dedupNewsById []
        ((rssItems ++ crawlerItems).filter
          (fun i => now - hours ≤ i.published))).filter
        (fun i => i.id ∉ trackerNews)).map NewsRec.id).Nodup :=
      (dedupNewsById_nodup _ []).sublist ((List.filter_sublist _).map _)
    exact ((hperm.map NewsRec.id).nodup_iff).mpr hnodup

/-- Witness for `C7_news_fetch_all` at a concrete ingestion. -/
theorem C7_news_fetch_all_witness :
    (100 - 30 ≤ (⟨"n1", 5, 90⟩ : NewsRec).published ∧ "n1" ∉ ["old"])
    ∧ ((newsFetchAll 100 30 ["old"] [⟨"n1", 5, 90⟩]
        [⟨"n2", 7, 95⟩, ⟨"old", 9, 99⟩]).map NewsRec.id).Nodup
    ∧ (newsFetchAll 100 30 ["old"] [⟨"n1", 5, 90⟩]
        [⟨"n2", 7, 95⟩, ⟨"old", 9, 99⟩]).Sorted newsKeyGE :=
  have h := C7_news_fetch_all 100 30 ["old"] [⟨"n1", 5, 90⟩]
    [⟨"n2", 7, 95⟩, ⟨"old", 9, 99⟩]
  ⟨h.1 ⟨"n1", 5, 90⟩ (by decide), h.2.1, h.2.2⟩

/-! ## Part 7: the file-list writers
    (src/file_index.py `build_file_list`/`write_file_list`, and
    `task_update_file_list` in scripts/daily_crawl.py).

    Inputs are the `*.json` filename lists produced by `glob` in each data
    directory; the written JSON object is modelled as an ordered list of
    (key, value) pairs. -/

/-- A JSON value appearing in `file-list.json`: a filename array or a
    timestamp string. -/
inductive JVal where
  | arr (items : List String)
  | str (s : String)
deriving DecidableEq, Repr

/-- `sorted(names, reverse=True)`: reverse-lexicographic stable sort of the
    filenames (used by both writers). -/
def sortedJsonFilenames (names : List String) : List String :=
  List.insertionSort (fun a b : String => b ≤ a) names

instance : IsTotal String (fun a b : String => b ≤ a) :=
  ⟨fun a b => le_total b a⟩

instance : IsTrans String (fun a b : String => b ≤ a) :=
  ⟨fun _ _ _ h1 h2 => le_trans h2 h1⟩

instance : DecidableRel (fun a b : String => b ≤ a) := fun a b =>
  inferInstanceAs (Decidable (b ≤ a))

/-- The object written by `write_file_list` (src/file_index.py): the
    `FileList.to_dict` keys `papers`, `news`, `reports`, `last_updated`. -/
def writeFileListObj (papersNames newsNames reportsNames : List String)
    (lastUpdated : String) : List (String × JVal) :=
  [("papers", JVal.arr (sortedJsonFilenames papersNames)),
   ("news", JVal.arr (sortedJsonFilenames newsNames)),
   ("reports", JVal.arr (sortedJsonFilenames reportsNames)),
   ("last_updated", JVal.str lastUpdated)]

/-- The object written by `task_update_file_list` (scripts/daily_crawl.py):
    only the three filename lists — no `last_updated` key. -/
def taskUpdateFileListObj (papersNames newsNames reportsNames : List String) :
    List (String × JVal) :=
  [("papers", JVal.arr (sortedJsonFilenames papersNames)),
   ("news", JVal.arr (sortedJsonFilenames newsNames)),
   ("reports", JVal.arr (sortedJsonFilenames reportsNames))]

/-- C8 (counterexample): the file-list writer actually run by the daily
    pipeline (`task_update_file_list`) writes an object whose keys are
    `papers`, `news`, `reports` only — `last_updated` is missing, so the
    object does not have exactly the four claimed keys. -/
theorem C8_counterexample :
    (taskUpdateFileListObj ["2025-01-20.json"] [] []).map Prod.fst
      ≠ ["papers", "news", "reports", "last_updated"] := by decide

/-- C8 (amended): both writers enumerate the `*.json` filenames of the three
    data directories and sort each list in reverse lexicographic order
    (a permutation of the input, sorted descending — newest `YYYY-MM-DD`
    first); `write_file_list` in src/file_index.py writes exactly the keys
    `papers`, `news`, `reports`, `last_updated`, while the pipeline task
    `task_update_file_list` in scripts/daily_crawl.py writes only
    `papers`, `news`, `reports`. -/
theorem C8_file_list_writers (papersNames newsNames reportsNames : List String)
    (lastUpdated : String) (names : List String) :
    (writeFileListObj papersNames newsNames reportsNames lastUpdated).map Prod.fst
        = ["papers", "news", "reports", "last_updated"]
    ∧ (taskUpdateFileListObj papersNames newsNames reportsNames).map Prod.fst
        = ["papers", "news", "reports"]
    ∧ (sortedJsonFilenames names).Sorted (fun a b : String => b ≤ a)
    ∧ List.Perm (sortedJsonFilenames names) names :=
  ⟨rfl, rfl, List.sorted_insertionSort _ names, List.perm_insertionSort _ names⟩

/-! ## Part 8: `IdsTracker.save` and `IdsTracker.cleanup`
    (src/data_fetchers/ids_tracker.py).

    The filesystem effect of a save is modelled as the list of operations it
    performs; a crash during a save corresponds to executing only a prefix
    of them. -/

/-- The tracker's in-memory state: insertion-ordered `id → first_seen_iso`
    maps for papers and news. -/
structure TrackerData where
  papers : List (String × String)
  news : List (String × String)
deriving DecidableEq, Repr

/-- A filesystem operation. `truncate p` is `open(p, "w")` (the file content
    is lost immediately); `writeAll` is the subsequent `json.dump`;
    `rename` is what an atomic temp-file save would end with. -/
inductive FsOp where
  | truncate (path : String)
  | writeAll (path : String) (content : String)
  | rename (src dst : String)
deriving DecidableEq, Repr

def FsOp.isRename : FsOp → Bool
  | .rename _ _ => true
  | _ => false

def serializePairs (l : List (String × String)) : String :=
  l.foldl (fun acc e => acc ++ e.1 ++ ":" ++ e.2 ++ ";") ""

/-- The serialized full JSON state (`json.dump(self._data, f)`): both maps,
    in insertion order. -/
def serializeTracker (d : TrackerData) : String :=
  "papers[" ++ serializePairs d.papers ++ "]news[" ++ serializePairs d.news ++ "]"

/-- `IdsTracker.save`: `open(self._file_path, "w")` then `json.dump` — the
    target file is truncated and rewritten in place; no temporary file and
    no rename is involved. -/
def trackerSave (path : String) (d : TrackerData) : List FsOp :=
  [FsOp.truncate path, FsOp.writeAll path (serializeTracker d)]

/-- A flat filesystem: (path, content) pairs. -/
def setFile (fs : List (String × String)) (path content : String) :
    List (String × String) :=
  (path, content) :: fs.filter (fun e => ¬ e.1 = path)

def getFile (fs : List (String × String)) (path : String) : Option String :=
  (fs.find? (fun e => e.1 = path)).map Prod.snd

def applyOp (fs : List (String × String)) : FsOp → List (String × String)
  | FsOp.truncate p => setFile fs p ""
  | FsOp.writeAll p c => setFile fs p c
  | FsOp.rename src dst =>
      match getFile fs src with
      | some c => setFile (fs.filter (fun e => ¬ e.1 = src)) dst c
      | none => fs

def applyOps (fs : List (String × String)) : List FsOp →
    List (String × String)
  | [] => fs
  | op :: rest => applyOps (applyOp fs op) rest

/-- `IdsTracker.cleanup`: keep the entries with `first_seen ≥ cutoff`
    (ISO-timestamp string comparison `ts >= cutoff_str`), count the
    removals, and rewrite the file via `save` only when at least one entry
    was removed.  Returns the new state, the filesystem operations
    performed, and the removal count. -/
def trackerCleanup (path cutoffStr : String) (d : TrackerData) :
    TrackerData × List FsOp × Nat :=
  let papers2 := d.papers.filter (fun e => cutoffStr ≤ e.2)
  let news2 := d.news.filter (fun e => cutoffStr ≤ e.2)
  let cleanedCount := (d.papers.length - papers2.length)
    + (d.news.length - news2.length)
  let d2 : TrackerData := { papers := papers2, news := news2 }
  if 0 < cleanedCount then (d2, trackerSave path d2, cleanedCount)
  else (d2, [], cleanedCount)

/-- C9 (counterexample): `save` is not atomic.  At a concrete state it
    performs no rename at all (so it is not a write-to-temp-then-rename),
    and executing only its first operation — a crash right after
    `open(path, "w")` — leaves the ids file empty instead of intact. -/
theorem C9_counterexample :
    ((trackerSave "ids.json" { papers := [("a", "t1")], news := [] }).all
        (fun op => op.isRename = false))
    ∧ getFile (applyOps [("ids.json", "OLD")]
        ((trackerSave "ids.json" { papers := [("a", "t1")], news := [] }).take 1))
        "ids.json" = some "" := by decide

/-- C9 (amended): `save` writes the full serialized state by truncating and
    rewriting the target file in place — never through a temporary file and
    rename, so an interrupted save can leave a truncated file; `cleanup`
    keeps exactly the entries with `first_seen ≥ cutoff` and rewrites the
    file via that same `save` only when at least one entry was removed. -/
theorem C9_tracker_save_cleanup (path cutoffStr : String) (d : TrackerData) :
    (∀ op ∈ trackerSave path d, op.isRename = false)
    ∧ (trackerCleanup path cutoffStr d).1.papers
        = d.papers.filter (fun e => cutoffStr ≤ e.2)
    ∧ (trackerCleanup path cutoffStr d).1.news
        = d.news.filter (fun e => cutoffStr ≤ e.2)
    ∧ ((trackerCleanup path cutoffStr d).2.1 ≠ []
        ↔ 0 < (trackerCleanup path cutoffStr d).2.2)
    ∧ ((trackerCleanup path cutoffStr d).2.1 = []
        ∨ (trackerCleanup path cutoffStr d).2.1
            = trackerSave path (trackerCleanup path cutoffStr d).1) := by
  refine ⟨?_, ?_, ?_, ?_, ?_⟩
  · intro op hop
    rcases List.mem_cons.mp hop with rfl | hop2
    · rfl
    · rcases List.mem_cons.mp hop2 with rfl | hop3
      · rfl
      · simp at hop3
  · unfold trackerCleanup
    dsimp only
    split
    · rfl
    · rfl
  · unfold trackerCleanup
    dsimp only
    split
    · rfl
    · rfl
  · unfold trackerCleanup
    dsimp only
    split
    · rename_i h
      simp only [trackerSave]
      constructor
      · intro _; exact h
      · intro _; simp
    · rename_i h
      simp only []
      constructor
      · intro hc; exact absurd rfl hc
      · intro hc; exact absurd hc h
  · unfold trackerCleanup
    dsimp only
    split
    · right; rfl
    · left; rfl

/-- Witness for `C9_tracker_save_cleanup` at a concrete tracker state with
    one expired entry. -/
theorem C9_tracker_save_cleanup_witness :
    (FsOp.truncate "ids.json").isRename = false
    ∧ (trackerCleanup "ids.json" "t2"
        { papers := [("a", "t1"), ("b", "t3")], news := [] }).1.papers
        = [("a", "t1"), ("b", "t3")].filter (fun e => "t2" ≤ e.2)
    ∧ (trackerCleanup "ids.json" "t2"
        { papers := [("a", "t1"), ("b", "t3")], news := [] }).1.news
        = ([] : List (String × String)).filter (fun e => "t2" ≤ e.2)
    ∧ ((trackerCleanup "ids.json" "t2"
        { papers := [("a", "t1"), ("b", "t3")], news := [] }).2.1 ≠ []
        ↔ 0 < (trackerCleanup "ids.json" "t2"
            { papers := [("a", "t1"), ("b", "t3")], news := [] }).2.2)
    ∧ ((trackerCleanup "ids.json" "t2"
        { papers := [("a", "t1"), ("b", "t3")], news := [] }).2.1 = []
        ∨ (trackerCleanup "ids.json" "t2"
            { papers := [("a", "t1"), ("b", "t3")], news := [] }).2.1
            = trackerSave "ids.json" (trackerCleanup "ids.json" "t2"
                { papers := [("a", "t1"), ("b", "t3")], news := [] }).1) :=
  have h := C9_tracker_save_cleanup "ids.json" "t2"
    { papers := [("a", "t1"), ("b", "t3")], news := [] }
  ⟨h.1 (FsOp.truncate "ids.json") (by decide), h.2.1, h.2.2.1, h.2.2.2.1,
   h.2.2.2.2⟩
